import Mathlib

/-
Verification development for the regclient descriptor identity model and the
regsync tag-cleanup engine.

The cleanup engine (matchesExclusionPattern, findSyncEntriesForTarget,
cleanupTags) is translated from cmd/regsync/cleanup.go.  The tag filter
(filterTagList), the regular-expression layer, the semver-range check and the
descriptor package (Same, GetData, DigestAlgo, DigestAlgoPrefer,
DescriptorListSearch) are not part of the provided sources (only their tests
and callers are); those are modelled from the specification, cross-checked
against the package tests.

External collaborators (registry client, caller context) are modelled as an
explicit environment: the tag listing, the per-tag deletion outcome and the
point at which cooperative cancellation is first observed.
-/

set_option autoImplicit false

deriving instance DecidableEq for Except

/-- Modelled from the spec: a tiny regular-expression engine standing in for
Go's regexp package, which is external to the provided sources.  It supports
literal characters, the any-character dot, a postfix star and the text anchors
at the pattern start and end; unsupported metacharacters and a dangling star
fail to compile, matching the spec's requirement that a malformed pattern is a
compile failure identified to the caller.  Matching is unanchored search, as
in Go. -/
inductive RAtom where
  | dot : RAtom
  | chr : Char → RAtom
  | bol : RAtom
  | eol : RAtom
deriving DecidableEq

structure RItem where
  atom : RAtom
  starred : Bool
deriving DecidableEq

/-- Characters that this regex subset refuses to compile (they introduce
constructs outside the modelled fragment). -/
def metaChars : List Char := "()[]\x7b\x7d|+?\\".data

/-- The atom denoted by one pattern character. -/
def atomOf (c : Char) : RAtom :=
  if c = '.' then RAtom.dot
  else if c = '^' then RAtom.bol
  else if c = '$' then RAtom.eol
  else RAtom.chr c

/-- Modelled from the spec: pattern compilation.  Returns none on a malformed
pattern (unsupported metacharacter, or a star with no preceding atom). -/
def parsePattern : List Char → Option (List RItem)
  | [] => some []
  | [c] =>
    if c ∈ metaChars ∨ c = '*' then none else some [⟨atomOf c, false⟩]
  | c :: c2 :: rest =>
    if c ∈ metaChars ∨ c = '*' then none
    else if c2 = '*' then (parsePattern rest).map (fun l => ⟨atomOf c, true⟩ :: l)
    else (parsePattern (c2 :: rest)).map (fun l => ⟨atomOf c, false⟩ :: l)

def regexCompile (pattern : String) : Option (List RItem) :=
  parsePattern pattern.data

/-- Whether a non-anchor atom accepts one character. -/
def atomStep : RAtom → Char → Bool
  | RAtom.dot, _ => true
  | RAtom.chr c, a => c = a
  | RAtom.bol, _ => false
  | RAtom.eol, _ => false

/-- Match the item list against the suffix `cs` of the subject, where `i` is
the absolute position of `cs` in the subject (used by the start anchor).  The
fuel parameter makes the lexicographic recursion structural; every call site
supplies fuel exceeding the longest possible call chain, so the fuel-exhausted
branch is never taken. -/
def matchHere : Nat → List RItem → Nat → List Char → Bool
  | 0, _, _, _ => false
  | _, [], _, _ => true
  | fuel + 1, it :: rest, i, cs =>
    if it.starred then
      matchHere fuel rest i cs ||
        (match cs with
         | [] => false
         | c :: cs2 => atomStep it.atom c && matchHere fuel (it :: rest) (i + 1) cs2)
    else
      match it.atom with
      | RAtom.bol => decide (i = 0) && matchHere fuel rest i cs
      | RAtom.eol => cs.isEmpty && matchHere fuel rest i cs
      | a =>
        match cs with
        | [] => false
        | c :: cs2 => atomStep a c && matchHere fuel rest (i + 1) cs2

/-- Fuel sufficient for matchHere: one step per item plus one full item list
per consumed character. -/
def matchFuel (items : List RItem) (cs : List Char) : Nat :=
  cs.length * (items.length + 1) + items.length + 1

/-- Unanchored search: try to match starting at every position. -/
def searchFrom (items : List RItem) : Nat → List Char → Bool
  | i, cs =>
    matchHere (matchFuel items cs) items i cs ||
      match cs with
      | [] => false
      | _ :: cs2 => searchFrom items (i + 1) cs2

def regexMatch (items : List RItem) (s : String) : Bool :=
  searchFrom items 0 s.data

/-- Error kinds surfaced by the tag filter and the cleanup engine. -/
inductive CErr where
  | invalidPattern : String → CErr
  | canceled : CErr
  | deleteFailed : String → String → CErr
deriving DecidableEq

/-- A tag filter set: allow patterns, deny patterns and a semver range
(ConfigTags in the regsync configuration). -/
structure TagFilterSet where
  allow : List String := []
  deny : List String := []
  semverRange : String := ""
deriving DecidableEq

/-- A sync rule: target repository, its top-level tag filter, additional
filter sets and the cleanup exclusion patterns. -/
structure ConfigSync where
  target : String
  tags : TagFilterSet := {}
  tagSets : List TagFilterSet := []
  cleanupTagsExclude : List String := []
deriving DecidableEq

/-- Compile every pattern of a list, failing on the first malformed one with
the offending pattern. -/
def compileAll : List String → Except CErr (List (List RItem))
  | [] => Except.ok []
  | p :: ps =>
    match regexCompile p with
    | none => Except.error (CErr.invalidPattern p)
    | some r =>
      match compileAll ps with
      | Except.error e => Except.error e
      | Except.ok rs => Except.ok (r :: rs)

/-- Modelled from the spec: filterTagList (the regsync tag filter, which is
not among the provided sources).  A tag is retained when it matches at least
one allow pattern (or the allow list is empty), matches no deny pattern, and,
when a semver range is set, satisfies the range according to the external
semver library `sv`.  A pattern that fails to compile aborts the whole call
with the offending pattern; no partial result is returned, and the output
preserves the input order. -/
def filterTagList (sv : String → String → Bool) (ts : TagFilterSet)
    (tags : List String) : Except CErr (List String) :=
  match compileAll ts.allow with
  | Except.error e => Except.error e
  | Except.ok allows =>
    match compileAll ts.deny with
    | Except.error e => Except.error e
    | Except.ok denies =>
      Except.ok (tags.filter (fun t =>
        (allows.isEmpty || allows.any (fun r => regexMatch r t)) &&
        !(denies.any (fun r => regexMatch r t)) &&
        (decide (ts.semverRange = "") || sv t ts.semverRange)))

/-- The environment a cleanup invocation runs in: the external registry
client's tag listing for the target, the outcome of each individual tag
deletion (none = success, some msg = registry-level failure), and the index of
the scheduled deletion before which the caller's cancellation is first
observed (none = never cancelled). -/
structure CleanupEnv where
  tags : List String
  delErr : String → Option String
  cancelAt : Option Nat

/-- The observable outcome of a cleanup invocation: the tags whose deletion
was actually issued to the registry (in order), and either a fatal error
(filter or exclusion pattern failure) or the aggregate of per-tag failures
(empty aggregate = success). -/
structure CleanupOutcome where
  attempted : List String
  result : Except CErr (List CErr)

/-- Translated from cmd/regsync/cleanup.go: checks a tag against the pooled
exclusion patterns in order, compiling each pattern as it is reached; a
pattern that fails to compile aborts with the offending pattern, and the first
matching pattern wins. -/
def matchesExclusionPattern : String → List String → Except CErr (Bool × String)
  | _, [] => Except.ok (false, "")
  | tag, p :: ps =>
    match regexCompile p with
    | none => Except.error (CErr.invalidPattern p)
    | some r =>
      if regexMatch r tag then Except.ok (true, p)
      else matchesExclusionPattern tag ps

/-- Translated from cmd/regsync/cleanup.go: all sync entries sharing the
target. -/
def findSyncEntriesForTarget (conf : List ConfigSync) (tgt : String) : List ConfigSync :=
  conf.filter (fun s => s.target = tgt)

/-- Translated from cmd/regsync/cleanup.go: a sync entry's effective filter
sets, its tagSets plus its top-level tag filter when any of allow, deny or
semverRange is non-empty. -/
def effectiveSets (se : ConfigSync) : List TagFilterSet :=
  if se.tags.allow.length > 0 ∨ se.tags.deny.length > 0 ∨ se.tags.semverRange.length > 0 then
    se.tagSets ++ [se.tags]
  else se.tagSets

/-- Translated from cmd/regsync/cleanup.go: append the tags of the second
list not already present (slices.Contains check), preserving first-seen
order. -/
def addUnique (acc new : List String) : List String :=
  new.foldl (fun a tag => if tag ∈ a then a else a ++ [tag]) acc

/-- Translated from cmd/regsync/cleanup.go: run filterTagList once per filter
set over the target's tag list, accumulating the union of surviving tags; a
filter error aborts. -/
def runFilterSets (sv : String → String → Bool) (tTagsList : List String) :
    List TagFilterSet → List String → Except CErr (List String)
  | [], acc => Except.ok acc
  | ts :: rest, acc =>
    match filterTagList sv ts tTagsList with
    | Except.error e => Except.error e
    | Except.ok cur => runFilterSets sv tTagsList rest (addUnique acc cur)

/-- Translated from cmd/regsync/cleanup.go: the wanted-tag computation over
all sibling sync entries, also reporting whether every entry had zero
effective filter sets. -/
def computeWantedGo (sv : String → String → Bool) (tTagsList : List String) :
    List ConfigSync → List String → Bool → Except CErr (List String × Bool)
  | [], acc, allSetsEmpty => Except.ok (acc, allSetsEmpty)
  | se :: rest, acc, allSetsEmpty =>
    let sets := effectiveSets se
    if sets.length > 0 then
      match runFilterSets sv tTagsList sets acc with
      | Except.error e => Except.error e
      | Except.ok acc2 => computeWantedGo sv tTagsList rest acc2 false
    else computeWantedGo sv tTagsList rest acc allSetsEmpty

def computeWanted (sv : String → String → Bool) (syncEntries : List ConfigSync)
    (tTagsList : List String) : Except CErr (List String × Bool) :=
  computeWantedGo sv tTagsList syncEntries [] true

/-- Translated from cmd/regsync/cleanup.go: the pooled exclusion patterns of
all sibling sync entries, concatenated in order. -/
def allExclusions (syncEntries : List ConfigSync) : List String :=
  syncEntries.foldl (fun acc se => acc ++ se.cleanupTagsExclude) []

/-- Translated from cmd/regsync/cleanup.go: classify each existing tag in
listing order; a wanted tag is skipped, a tag matching a pooled exclusion
pattern is preserved, anything else is scheduled for deletion; a pattern
compile failure aborts. -/
def classifyTags (wantedTags pats : List String) : List String → Except CErr (List String)
  | [] => Except.ok []
  | tag :: rest =>
    if tag ∈ wantedTags then classifyTags wantedTags pats rest
    else
      match matchesExclusionPattern tag pats with
      | Except.error e => Except.error e
      | Except.ok (excluded, _) =>
        match classifyTags wantedTags pats rest with
        | Except.error e => Except.error e
        | Except.ok restDel =>
          Except.ok (if excluded then restDel else tag :: restDel)

/-- Whether the caller's cancellation is observed at the check before
scheduled deletion number k. -/
def cancelledAt (env : CleanupEnv) (k : Nat) : Bool :=
  match env.cancelAt with
  | some j => j ≤ k
  | none => false

/-- Translated from cmd/regsync/cleanup.go: the deletion loop.  Before each
deletion the context is checked; on cancellation a Canceled failure is
recorded and the loop stops at once.  Otherwise the deletion is issued and an
individual failure is collected without stopping the loop.  Returns the
issued deletions and the collected failures, both in order. -/
def deleteLoop (env : CleanupEnv) : Nat → List String → List String × List CErr
  | _, [] => ([], [])
  | k, tag :: rest =>
    if cancelledAt env k then ([], [CErr.canceled])
    else
      match env.delErr tag with
      | some e =>
        let r := deleteLoop env (k + 1) rest
        (tag :: r.1, CErr.deleteFailed tag e :: r.2)
      | none =>
        let r := deleteLoop env (k + 1) rest
        (tag :: r.1, r.2)

/-- Translated from cmd/regsync/cleanup.go: cleanupTags.  Target-reference
parsing and the tag listing are external collaborators: the environment
supplies the listed tags directly.  The triggering sync rule itself is not
consulted beyond being part of the configuration, exactly as in the source. -/
def cleanupTags (sv : String → String → Bool) (conf : List ConfigSync)
    (tgt : String) (env : CleanupEnv) : CleanupOutcome :=
  let tTagsList := env.tags
  let syncEntries := findSyncEntriesForTarget conf tgt
  match computeWanted sv syncEntries tTagsList with
  | Except.error e => ⟨[], Except.error e⟩
  | Except.ok (w, allSetsEmpty) =>
    let wantedTags := if allSetsEmpty then tTagsList else w
    let pats := allExclusions syncEntries
    match classifyTags wantedTags pats tTagsList with
    | Except.error e => ⟨[], Except.error e⟩
    | Except.ok tagsToDelete =>
      let r := deleteLoop env 0 tagsToDelete
      ⟨r.1, Except.ok r.2⟩

/-- The per-tag failures the deletion environment produces on a list of
issued deletions. -/
def delFailures (env : CleanupEnv) (tags : List String) : List CErr :=
  tags.filterMap (fun t => (env.delErr t).map (fun e => CErr.deleteFailed t e))

/-- Whether a tag matches at least one pattern of the pooled exclusion list
(patterns that fail to compile match nothing). -/
def anyExcl (pats : List String) (t : String) : Bool :=
  pats.any (fun p =>
    match regexCompile p with
    | some r => regexMatch r t
    | none => false)

/-- Error kinds of the descriptor component. -/
inductive DescErr where
  | parsingFailed : DescErr
  | unsupportedAlgorithm : DescErr
  | notFound : DescErr
deriving DecidableEq

/-- A platform descriptor entry (OS, architecture, variant, OS version, OS
features); only OS, architecture and variant take part in matching. -/
structure Platform where
  os : String := ""
  architecture : String := ""
  variant : String := ""
  osVersion : String := ""
  osFeatures : List String := []
deriving DecidableEq

/-- Modelled from the spec: a descriptor, the atomic content-addressable
reference.  The digest is kept as its string form (algorithm, colon,
hex-encoded hash).  Inline data is a byte list, the empty list standing for
absent data as in the source's nil slice.  The preferred-algorithm override
only affects default-algorithm resolution. -/
structure Descriptor where
  mediaType : String := ""
  size : Int := 0
  digest : String := ""
  data : List Nat := []
  platform : Option Platform := none
  annotations : List (String × String) := []
  artifactType : String := ""
  urls : List String := []
  preferredAlgo : Option String := none
deriving DecidableEq

/-- Split a character list at the first colon. -/
def splitColon : List Char → Option (List Char × List Char)
  | [] => none
  | c :: rest =>
    if c = ':' then some ([], rest)
    else (splitColon rest).map (fun p => (c :: p.1, p.2))

def hexDigitChars : List Char := "0123456789abcdef".data

/-- Modelled from the spec: the registered hash algorithms and their
hex-encoded output lengths (at minimum SHA-256 and SHA-512). -/
def algoHexLen (a : String) : Option Nat :=
  if a = "sha256" then some 64
  else if a = "sha512" then some 128
  else none

def registeredAlgo (a : String) : Bool :=
  (algoHexLen a).isSome

/-- The process-wide canonical default algorithm. -/
def canonicalAlgo : String := "sha256"

/-- Modelled from the spec: digest validation.  Splits on the first colon;
the algorithm must be registered and the hash must be hex of the algorithm's
output length; anything else is invalid. -/
def validDigest (s : String) : Bool :=
  match splitColon s.data with
  | none => false
  | some (alg, hex) =>
    match algoHexLen (String.mk alg) with
    | none => false
    | some n => decide (hex.length = n) && hex.all (fun c => c ∈ hexDigitChars)

/-- The algorithm named by a digest string (meaningful when valid). -/
def digestAlgoOf (s : String) : String :=
  match splitColon s.data with
  | some (alg, _) => String.mk alg
  | none => canonicalAlgo

/-- Modelled from the spec: DigestAlgo.  The algorithm implied by a valid
digest, otherwise the preferred override when set, otherwise the canonical
default. -/
def Descriptor.DigestAlgo (d : Descriptor) : String :=
  if validDigest d.digest then digestAlgoOf d.digest
  else
    match d.preferredAlgo with
    | some a => a
    | none => canonicalAlgo

/-- Modelled from the spec: DigestAlgoPrefer.  Fails with
UnsupportedAlgorithm when the algorithm is not registered; otherwise records
the preference, which only affects resolution of empty or invalid digests. -/
def Descriptor.DigestAlgoPrefer (d : Descriptor) (a : String) : Except DescErr Descriptor :=
  if registeredAlgo a then Except.ok { d with preferredAlgo := some a }
  else Except.error DescErr.unsupportedAlgorithm

def mtDocker2Manifest : String := "application/vnd.docker.distribution.manifest.v2+json"

def mtDocker2ManifestList : String :=
  "application/vnd.docker.distribution.manifest.list.v2+json"

def mtDocker2ImageConfig : String := "application/vnd.docker.container.image.v1+json"

def mtDocker2LayerGzip : String := "application/vnd.docker.image.rootfs.diff.tar.gzip"

def mtOCI1Manifest : String := "application/vnd.oci.image.manifest.v1+json"

def mtOCI1ManifestList : String := "application/vnd.oci.image.index.v1+json"

def mtOCI1ImageConfig : String := "application/vnd.oci.image.config.v1+json"

def mtOCI1LayerGzip : String := "application/vnd.oci.image.layer.v1.tar+gzip"

/-- Modelled from the spec: the Docker-to-OCI media type conversion table
behind the rule that byte-identical content may be labeled with a
Docker-schema or an OCI-schema wrapper of the same kind.  Unknown media types
map to the empty string (no known OCI equivalent). -/
def mtToOCI (mt : String) : String :=
  if mt = mtDocker2ManifestList then mtOCI1ManifestList
  else if mt = mtDocker2Manifest then mtOCI1Manifest
  else if mt = mtDocker2ImageConfig then mtOCI1ImageConfig
  else if mt = mtDocker2LayerGzip then mtOCI1LayerGzip
  else if mt = mtOCI1ManifestList then mtOCI1ManifestList
  else if mt = mtOCI1Manifest then mtOCI1Manifest
  else if mt = mtOCI1ImageConfig then mtOCI1ImageConfig
  else if mt = mtOCI1LayerGzip then mtOCI1LayerGzip
  else ""

/-- Modelled from the spec: Same, the weaker content-level relation.  Two
descriptors are the same when digest and size agree and the media types are
compatible; annotations, urls, platform and artifact type are ignored.  Here
the package tests override the spec's media-type wording: TestCompare expects
Same to hold across the Docker-to-OCI relabeling of one kind of content
(Docker2Manifest versus OCI1Manifest) but to fail across genuinely different
media types of equal byte length (Docker2Manifest versus Docker2ManifestList),
so the media types must be identical or convert to the same known OCI media
type. -/
def Descriptor.Same (d1 d2 : Descriptor) : Bool :=
  decide (d1.digest = d2.digest) && decide (d1.size = d2.size) &&
    (decide (d1.mediaType = d2.mediaType) ||
      (!(decide (mtToOCI d1.mediaType = "")) &&
        decide (mtToOCI d1.mediaType = mtToOCI d2.mediaType)))

/-- Modelled from the spec: GetData.  Returns the inline data after checking
that it is present, that its length equals the declared size, and that its
digest under the descriptor's own algorithm (as computed by the external hash
function `hash`, rendered algorithm-colon-hex) equals the declared digest.
Any violation is the single error kind ParsingFailed. -/
def Descriptor.GetData (hash : String → List Nat → String) (d : Descriptor) :
    Except DescErr (List Nat) :=
  if d.data.length = 0 then Except.error DescErr.parsingFailed
  else if (d.data.length : Int) ≠ d.size then Except.error DescErr.parsingFailed
  else if d.digest ≠ d.DigestAlgo ++ ":" ++ hash d.DigestAlgo d.data then
    Except.error DescErr.parsingFailed
  else Except.ok d.data

/-- A match specification for descriptor-list search. -/
structure MatchOpt where
  platform : Option Platform := none
  annotations : Option (List (String × String)) := none
  artifactType : String := ""
  sortAnnot : String := ""
  sortDesc : Bool := false

/-- Look up an annotation key. -/
def annLookup (l : List (String × String)) (k : String) : Option String :=
  (l.find? (fun kv => kv.1 = k)).map (fun kv => kv.2)

/-- Every requested annotation pair is present with an equal value. -/
def annMatch (req : List (String × String)) (d : Descriptor) : Bool :=
  req.all (fun kv => annLookup d.annotations kv.1 = some kv.2)

/-- Exact platform match: OS, architecture and variant all equal. -/
def exactPlat (req q : Platform) : Bool :=
  decide (req.os = q.os) && decide (req.architecture = q.architecture) &&
    decide (req.variant = q.variant)

/-- Modelled from the spec: the well-known OS-compatibility table; a darwin
request may be satisfied by a linux entry. -/
def compatOS (os : String) : List String :=
  if os = "darwin" then ["linux"] else []

/-- Compatibility platform match: candidate OS in the requested OS's
compatibility list, architecture and variant equal. -/
def compatPlat (req q : Platform) : Bool :=
  (compatOS req.os).contains q.os && decide (req.architecture = q.architecture) &&
    decide (req.variant = q.variant)

def platExact (req : Platform) (d : Descriptor) : Bool :=
  match d.platform with
  | some q => exactPlat req q
  | none => false

def platCompat (req : Platform) (d : Descriptor) : Bool :=
  match d.platform with
  | some q => compatPlat req q
  | none => false

/-- Modelled from the spec: when a platform is requested, exact matches are
preferred; when none exists the compatibility table applies.  Candidates
without a platform are not selected by a platform request: here the package
tests override the spec's retention wording, since TestListSearch expects
NotFound when only platformless candidates remain. -/
def platPool (req : Platform) (cands : List Descriptor) : List Descriptor :=
  let ex := cands.filter (platExact req)
  if ex = [] then cands.filter (platCompat req) else ex

/-- Strict preference between two candidates under the sort annotation:
candidates missing the key sort last regardless of direction; otherwise the
string values are compared, ascending unless descending was requested. -/
def annBetter (key : String) (desc : Bool) (a b : Descriptor) : Bool :=
  match annLookup a.annotations key, annLookup b.annotations key with
  | none, _ => false
  | some _, none => true
  | some x, some y => if desc then y < x else x < y

/-- The first candidate no later candidate strictly beats (the head of a
stable sort under the annotation ordering). -/
def pickFirstBest (key : String) (desc : Bool) : List Descriptor → Option Descriptor
  | [] => none
  | d :: rest =>
    match pickFirstBest key desc rest with
    | none => some d
    | some best => if annBetter key desc best d then some best else some d

/-- Modelled from the spec: DescriptorListSearch.  Filters by artifact type
and annotation subset, applies platform preference, then returns the first
candidate under the sort-annotation ordering (the listing order when no sort
key is set); zero survivors fail with NotFound. -/
def DescriptorListSearch (dl : List Descriptor) (opt : MatchOpt) :
    Except DescErr Descriptor :=
  let c1 := dl.filter (fun d =>
    (decide (opt.artifactType = "") || decide (d.artifactType = opt.artifactType)) &&
    (match opt.annotations with
     | none => true
     | some req => annMatch req d))
  let pool :=
    match opt.platform with
    | none => c1
    | some req => platPool req c1
  let chosen :=
    if opt.sortAnnot = "" then pool.head?
    else pickFirstBest opt.sortAnnot opt.sortDesc pool
  match chosen with
  | none => Except.error DescErr.notFound
  | some d => Except.ok d

/-- A concrete descriptor with a valid sha256-format digest, used by
witnesses. -/
def dValid256 : Descriptor :=
  { digest := "sha256:aaaaaaaaaaaaaaaaaaaaaaaaaaaaaaaaaaaaaaaaaaaaaaaaaaaaaaaaaaaaaaaa" }

/-- C1 (amended): same(a, b) holds exactly when the digests and sizes agree
and the media types are identical or convert to the same known OCI media
type; annotations, urls, platform and artifact type play no role in the
result. -/
theorem Same_characterization (a b : Descriptor) :
    (a.Same b = true ↔ (a.digest = b.digest ∧ a.size = b.size ∧
      (a.mediaType = b.mediaType ∨
        (mtToOCI a.mediaType ≠ "" ∧ mtToOCI a.mediaType = mtToOCI b.mediaType)))) ∧
    ∀ an u p af an2 u2 p2 af2,
      Descriptor.Same
        { a with annotations := an, urls := u, platform := p, artifactType := af }
        { b with annotations := an2, urls := u2, platform := p2,
                 artifactType := af2 } = a.Same b := by
  constructor
  · simp [Descriptor.Same, and_assoc]
  · intro an u p af an2 u2 p2 af2
    simp [Descriptor.Same]

/-- Two descriptors equal except for the media type, mirroring the
TestCompare rows around a Docker2Manifest descriptor. -/
def dSameBase : Descriptor :=
  { mediaType := mtDocker2Manifest, size := 1234, digest := dValid256.digest }

def dSameList : Descriptor := { dSameBase with mediaType := mtDocker2ManifestList }

def dSameOCI : Descriptor := { dSameBase with mediaType := mtOCI1Manifest }

/-- C1 counterexample: two descriptors with equal digest and size but media
types Docker2Manifest versus Docker2ManifestList are not Same (TestCompare row
under the claimed source lines), so the media type does play a role; the
Docker-to-OCI relabeling of the same kind of content (Docker2Manifest versus
OCI1Manifest) does preserve Same. -/
theorem Same_mediaType_cex :
    dSameBase.digest = dSameList.digest ∧ dSameBase.size = dSameList.size ∧
    dSameBase.mediaType ≠ dSameList.mediaType ∧
    Descriptor.Same dSameBase dSameList = false ∧
    Descriptor.Same dSameBase dSameOCI = true := by
  refine ⟨rfl, rfl, by decide, by decide, by decide⟩

/-- C7: getData fails with the single error kind ParsingFailed exactly when
the inline data is missing, its length differs from the declared size, or its
digest under the descriptor's own algorithm differs from the declared digest;
when all three checks pass it returns exactly the inline bytes. -/
theorem GetData_spec (hash : String → List Nat → String) (d : Descriptor) :
    (d.GetData hash = Except.error DescErr.parsingFailed ↔
      (d.data = [] ∨ (d.data.length : Int) ≠ d.size ∨
        d.digest ≠ d.DigestAlgo ++ ":" ++ hash d.DigestAlgo d.data)) ∧
    ∀ bs, d.GetData hash = Except.ok bs ↔
      (d.data ≠ [] ∧ (d.data.length : Int) = d.size ∧
        d.digest = d.DigestAlgo ++ ":" ++ hash d.DigestAlgo d.data ∧ bs = d.data) := by
  unfold Descriptor.GetData
  constructor
  · split_ifs with h1 h2 h3 <;>
      simp_all [List.length_eq_zero, eq_comm]
  · intro bs
    split_ifs with h1 h2 h3 <;>
      simp_all [List.length_eq_zero, eq_comm]

/-- C7 witness: a well-formed descriptor round-trips its inline bytes. -/
def hashW : String → List Nat → String :=
  fun _ _ => "aaaaaaaaaaaaaaaaaaaaaaaaaaaaaaaaaaaaaaaaaaaaaaaaaaaaaaaaaaaaaaaa"

def dGoodData : Descriptor :=
  { size := 2,
    digest := "sha256:aaaaaaaaaaaaaaaaaaaaaaaaaaaaaaaaaaaaaaaaaaaaaaaaaaaaaaaaaaaaaaaa",
    data := [1, 2] }

theorem GetData_spec_witness : dGoodData.GetData hashW = Except.ok [1, 2] :=
  ((GetData_spec hashW dGoodData).2 [1, 2]).mpr (by decide)

/-- C9: preferring a digest algorithm fails (with UnsupportedAlgorithm, the
only failure) exactly when the algorithm is not registered; on success the
digest itself is unchanged, and when the digest was already valid the reported
digest algorithm is unchanged as well. -/
theorem DigestAlgoPrefer_spec (d : Descriptor) (a : String) :
    (d.DigestAlgoPrefer a = Except.error DescErr.unsupportedAlgorithm ↔
      registeredAlgo a = false) ∧
    (∀ e, d.DigestAlgoPrefer a = Except.error e → e = DescErr.unsupportedAlgorithm) ∧
    ∀ d2, d.DigestAlgoPrefer a = Except.ok d2 →
      d2.digest = d.digest ∧ (validDigest d.digest = true → d2.DigestAlgo = d.DigestAlgo) := by
  unfold Descriptor.DigestAlgoPrefer
  by_cases hr : registeredAlgo a
  · refine ⟨by simp [hr], by simp [hr], ?_⟩
    intro d2 h2
    rw [if_pos hr] at h2
    cases h2
    refine ⟨rfl, ?_⟩
    intro hv
    simp [Descriptor.DigestAlgo, hv]
  · refine ⟨by simp [hr], by simp [hr], ?_⟩
    intro d2 h2
    rw [if_neg hr] at h2
    cases h2

/-- C9 witness: preferring sha512 on a descriptor with a valid sha256 digest
succeeds and leaves the resolved algorithm unchanged. -/
theorem DigestAlgoPrefer_spec_witness :
    registeredAlgo "sha512" = true ∧ validDigest dValid256.digest = true ∧
    Descriptor.DigestAlgo { dValid256 with preferredAlgo := some "sha512" } =
      Descriptor.DigestAlgo dValid256 :=
  ⟨by decide, by decide,
    ((DigestAlgoPrefer_spec dValid256 "sha512").2.2 _ rfl).2 (by decide)⟩

/-- A match specification requesting only a platform. -/
def platOpt (p : Platform) : MatchOpt := { platform := some p }

def linuxAmd : Platform := { os := "linux", architecture := "amd64" }

def windowsAmd : Platform := { os := "windows", architecture := "amd64" }

def darwinAmd : Platform := { os := "darwin", architecture := "amd64" }

def dLinuxE : Descriptor := { mediaType := "oci", size := 1, platform := some linuxAmd }

def dWindowsE : Descriptor := { mediaType := "oci", size := 1, platform := some windowsAmd }

def dDarwinE : Descriptor := { mediaType := "oci", size := 1, platform := some darwinAmd }

theorem filter_platOpt_self (dl : List Descriptor) (req : Platform) :
    dl.filter (fun d =>
      (decide ((platOpt req).artifactType = "") ||
        decide (d.artifactType = (platOpt req).artifactType)) &&
      (match (platOpt req).annotations with
       | none => true
       | some r => annMatch r d)) = dl := by
  apply List.filter_eq_self.mpr
  intro d _
  rfl

theorem search_platOpt_head (dl : List Descriptor) (req : Platform) :
    DescriptorListSearch dl (platOpt req) =
      match (platPool req dl).head? with
      | none => Except.error DescErr.notFound
      | some d => Except.ok d := by
  simp only [DescriptorListSearch]
  rw [filter_platOpt_self dl req]
  rfl

theorem head_filter_spec {p : Descriptor → Bool} {dl : List Descriptor} {d0 : Descriptor}
    (h0 : d0 ∈ dl) (hp : p d0 = true) :
    ∃ d, (dl.filter p).head? = some d ∧ d ∈ dl ∧ p d = true := by
  have hmem : d0 ∈ dl.filter p := List.mem_filter.mpr ⟨h0, hp⟩
  have hne : dl.filter p ≠ [] := List.ne_nil_of_mem hmem
  obtain ⟨d, rest, hcons⟩ := List.exists_cons_of_ne_nil hne
  refine ⟨d, by rw [hcons]; rfl, ?_⟩
  have : d ∈ dl.filter p := by rw [hcons]; exact List.mem_cons_self d rest
  exact ⟨(List.mem_filter.mp this).1, (List.mem_filter.mp this).2⟩

/-- C8 (amended): over any descriptor list with a linux/amd64 entry and no
entry exactly matching darwin/amd64, a darwin/amd64 search returns a
linux/amd64 entry by OS-compatibility fallback; and whenever the list holds an
exact OS+architecture+variant match for the requested platform (in particular
a windows/amd64 entry under a windows/amd64 request), the returned descriptor
is an exact match — exact match always outranks compatibility match. -/
theorem DescriptorListSearch_platform_rules :
    (∀ dl : List Descriptor,
      (∀ d ∈ dl, platExact darwinAmd d = false) →
      (∃ d ∈ dl, platCompat darwinAmd d = true) →
      ∃ d, DescriptorListSearch dl (platOpt darwinAmd) = Except.ok d ∧
        ∃ q, d.platform = some q ∧ q.os = "linux" ∧ q.architecture = "amd64" ∧
          q.variant = "") ∧
    (∀ (dl : List Descriptor) (req : Platform),
      (∃ d ∈ dl, platExact req d = true) →
      ∃ d, DescriptorListSearch dl (platOpt req) = Except.ok d ∧ platExact req d = true) := by
  constructor
  · intro dl hnoex ⟨d0, hd0, hd0c⟩
    have hexnil : dl.filter (platExact darwinAmd) = [] :=
      List.filter_eq_nil_iff.mpr (fun d hd => by simp [hnoex d hd])
    have hpool : platPool darwinAmd dl = dl.filter (platCompat darwinAmd) := by
      simp only [platPool]
      rw [if_pos hexnil]
    obtain ⟨d, hhead, hdmem, hdc⟩ := head_filter_spec hd0 hd0c
    refine ⟨d, ?_, ?_⟩
    · rw [search_platOpt_head, hpool, hhead]
    · unfold platCompat at hdc
      cases hq : d.platform with
      | none => rw [hq] at hdc; cases hdc
      | some q =>
        rw [hq] at hdc
        simp only [compatPlat, compatOS, darwinAmd, Bool.and_eq_true, decide_eq_true_eq,
          List.contains, List.elem, Bool.or_false, beq_iff_eq, if_pos] at hdc
        refine ⟨q, rfl, ?_, ?_, ?_⟩
        · have h1 := hdc.1.1
          cases hb : q.os == "linux" with
          | false => rw [hb] at h1; cases h1
          | true => exact eq_of_beq hb
        · exact hdc.1.2.symm
        · exact hdc.2.symm
  · intro dl req ⟨d0, hd0, hd0e⟩
    have hne : dl.filter (platExact req) ≠ [] :=
      List.ne_nil_of_mem (List.mem_filter.mpr ⟨hd0, hd0e⟩)
    have hpool : platPool req dl = dl.filter (platExact req) := by
      simp only [platPool]
      rw [if_neg hne]
    obtain ⟨d, hhead, hdmem, hde⟩ := head_filter_spec hd0 hd0e
    exact ⟨d, by rw [search_platOpt_head, hpool, hhead], hde⟩

/-- C8 counterexample: a list containing a linux/amd64 entry and a
windows/amd64 entry may also contain an exact darwin/amd64 entry, and then the
darwin/amd64 search returns that exact entry, not the linux/amd64 one — the
claim's own exact-outranks-compatibility rule defeats its universal
phrasing. -/
theorem DescriptorListSearch_platform_cex :
    dLinuxE.platform = some linuxAmd ∧ dWindowsE.platform = some windowsAmd ∧
    DescriptorListSearch [dLinuxE, dWindowsE, dDarwinE] (platOpt darwinAmd) =
      Except.ok dDarwinE ∧ dDarwinE ≠ dLinuxE ∧ dDarwinE.platform ≠ some linuxAmd := by
  refine ⟨rfl, rfl, ?_, by decide, by decide⟩
  rfl

/-- C8 witness: on a list with exactly a linux/amd64 and a windows/amd64
entry, the darwin/amd64 search falls back to the linux entry and the
windows/amd64 search picks the exact windows entry. -/
theorem DescriptorListSearch_platform_witness :
    (∀ d ∈ [dLinuxE, dWindowsE], platExact darwinAmd d = false) ∧
    (∃ d ∈ [dLinuxE, dWindowsE], platCompat darwinAmd d = true) ∧
    (∃ d, DescriptorListSearch [dLinuxE, dWindowsE] (platOpt darwinAmd) = Except.ok d ∧
      ∃ q, d.platform = some q ∧ q.os = "linux" ∧ q.architecture = "amd64" ∧
        q.variant = "") ∧
    (∃ d ∈ [dLinuxE, dWindowsE], platExact windowsAmd d = true) ∧
    (∃ d, DescriptorListSearch [dLinuxE, dWindowsE] (platOpt windowsAmd) = Except.ok d ∧
      platExact windowsAmd d = true) := by
  refine ⟨by decide, by decide, ?_, by decide, ?_⟩
  · exact DescriptorListSearch_platform_rules.1 [dLinuxE, dWindowsE] (by decide) (by decide)
  · exact DescriptorListSearch_platform_rules.2 [dLinuxE, dWindowsE] windowsAmd (by decide)

theorem addUnique_mem (new : List String) :
    ∀ (acc : List String) (t : String), t ∈ addUnique acc new ↔ t ∈ acc ∨ t ∈ new := by
  induction new with
  | nil => intro acc t; simp [addUnique]
  | cons x xs ih =>
    intro acc t
    have hstep : addUnique acc (x :: xs) = addUnique (if x ∈ acc then acc else acc ++ [x]) xs := rfl
    rw [hstep, ih]
    by_cases hx : x ∈ acc
    · simp only [if_pos hx, List.mem_cons]
      constructor
      · rintro (h | h)
        · exact Or.inl h
        · exact Or.inr (Or.inr h)
      · rintro (h | h | h)
        · exact Or.inl h
        · exact Or.inl (h ▸ hx)
        · exact Or.inr h
    · simp only [if_neg hx, List.mem_append, List.mem_singleton, List.mem_cons]
      tauto

theorem runFilterSets_mem (sv : String → String → Bool) (tags : List String)
    (sets : List TagFilterSet) :
    ∀ (acc w : List String), runFilterSets sv tags sets acc = Except.ok w →
      ∀ t, t ∈ w ↔ t ∈ acc ∨
        ∃ ts ∈ sets, ∃ out, filterTagList sv ts tags = Except.ok out ∧ t ∈ out := by
  induction sets with
  | nil =>
    intro acc w h t
    cases h
    simp
  | cons ts rest ih =>
    intro acc w h t
    simp only [runFilterSets] at h
    cases hf : filterTagList sv ts tags with
    | error e => rw [hf] at h; cases h
    | ok cur =>
      rw [hf] at h
      rw [ih _ _ h t, addUnique_mem]
      constructor
      · rintro ((h1 | h1) | ⟨ts2, hts2, out, hout, htout⟩)
        · exact Or.inl h1
        · exact Or.inr ⟨ts, List.mem_cons_self ts rest, cur, hf, h1⟩
        · exact Or.inr ⟨ts2, List.mem_cons_of_mem ts hts2, out, hout, htout⟩
      · rintro (h1 | ⟨ts2, hts2, out, hout, htout⟩)
        · exact Or.inl (Or.inl h1)
        · rcases List.mem_cons.mp hts2 with heq | hmem
          · subst heq
            rw [hf] at hout
            cases hout
            exact Or.inl (Or.inr htout)
          · exact Or.inr ⟨ts2, hmem, out, hout, htout⟩

theorem computeWantedGo_mem (sv : String → String → Bool) (tags : List String)
    (entries : List ConfigSync) :
    ∀ (acc : List String) (ae : Bool) (w : List String) (ae2 : Bool),
      computeWantedGo sv tags entries acc ae = Except.ok (w, ae2) →
      ∀ t, t ∈ w ↔ t ∈ acc ∨
        ∃ se ∈ entries, ∃ ts ∈ effectiveSets se,
          ∃ out, filterTagList sv ts tags = Except.ok out ∧ t ∈ out := by
  induction entries with
  | nil =>
    intro acc ae w ae2 h t
    cases h
    simp
  | cons se rest ih =>
    intro acc ae w ae2 h t
    simp only [computeWantedGo] at h
    by_cases hlen : (effectiveSets se).length > 0
    · rw [if_pos hlen] at h
      cases hr : runFilterSets sv tags (effectiveSets se) acc with
      | error e => rw [hr] at h; cases h
      | ok acc2 =>
        rw [hr] at h
        rw [ih _ _ _ _ h t, runFilterSets_mem sv tags _ _ _ hr t]
        constructor
        · rintro ((h1 | ⟨ts, hts, out, hout, htout⟩) | ⟨se2, hse2, rest2⟩)
          · exact Or.inl h1
          · exact Or.inr ⟨se, List.mem_cons_self se rest, ts, hts, out, hout, htout⟩
          · exact Or.inr ⟨se2, List.mem_cons_of_mem se hse2, rest2⟩
        · rintro (h1 | ⟨se2, hse2, rest2⟩)
          · exact Or.inl (Or.inl h1)
          · rcases List.mem_cons.mp hse2 with heq | hmem
            · subst heq
              exact Or.inl (Or.inr rest2)
            · exact Or.inr ⟨se2, hmem, rest2⟩
    · rw [if_neg hlen] at h
      have hnil : effectiveSets se = [] :=
        List.length_eq_zero.mp (Nat.eq_zero_of_not_pos hlen)
      rw [ih _ _ _ _ h t]
      constructor
      · rintro (h1 | ⟨se2, hse2, rest2⟩)
        · exact Or.inl h1
        · exact Or.inr ⟨se2, List.mem_cons_of_mem se hse2, rest2⟩
      · rintro (h1 | ⟨se2, hse2, rest2⟩)
        · exact Or.inl h1
        · rcases List.mem_cons.mp hse2 with heq | hmem
          · subst heq
            obtain ⟨ts, hts, _⟩ := rest2
            rw [hnil] at hts
            cases hts
          · exact Or.inr ⟨se2, hmem, rest2⟩

theorem computeWantedGo_allEmpty (sv : String → String → Bool) (tags : List String)
    (entries : List ConfigSync) (hall : ∀ se ∈ entries, effectiveSets se = []) :
    ∀ (acc : List String) (ae : Bool),
      computeWantedGo sv tags entries acc ae = Except.ok (acc, ae) := by
  induction entries with
  | nil => intro acc ae; rfl
  | cons se rest ih =>
    intro acc ae
    have hse : effectiveSets se = [] := hall se (List.mem_cons_self se rest)
    simp only [computeWantedGo, hse]
    exact ih (fun s hs => hall s (List.mem_cons_of_mem se hs)) acc ae

theorem matchesExclusionPattern_ok (pats : List String)
    (hcomp : ∀ p ∈ pats, regexCompile p ≠ none) (t : String) :
    ∃ s, matchesExclusionPattern t pats = Except.ok (anyExcl pats t, s) := by
  induction pats with
  | nil => exact ⟨"", rfl⟩
  | cons p ps ih =>
    obtain ⟨r, hr⟩ := Option.ne_none_iff_exists'.mp
      (hcomp p (List.mem_cons_self p ps))
    by_cases hm : regexMatch r t
    · refine ⟨p, ?_⟩
      simp only [matchesExclusionPattern, hr, if_pos hm, anyExcl, List.any_cons]
      rw [hm, Bool.true_or]
    · obtain ⟨s, hs⟩ := ih (fun q hq => hcomp q (List.mem_cons_of_mem p hq))
      refine ⟨s, ?_⟩
      have hm2 : regexMatch r t = false := Bool.not_eq_true _ ▸ eq_false_of_ne_true hm
      simp only [matchesExclusionPattern, hr, if_neg hm, anyExcl, List.any_cons, hm2,
        Bool.false_or]
      simpa [anyExcl] using hs

theorem classifyTags_eq (w pats : List String)
    (hcomp : ∀ p ∈ pats, regexCompile p ≠ none) :
    ∀ tags, classifyTags w pats tags =
      Except.ok (tags.filter (fun t => !(decide (t ∈ w)) && !(anyExcl pats t))) := by
  intro tags
  induction tags with
  | nil => rfl
  | cons tag rest ih =>
    simp only [classifyTags]
    by_cases hw : tag ∈ w
    · rw [if_pos hw, ih]
      simp [List.filter_cons, hw]
    · rw [if_neg hw]
      obtain ⟨s, hs⟩ := matchesExclusionPattern_ok pats hcomp tag
      rw [hs, ih]
      by_cases he : anyExcl pats tag
      · simp [List.filter_cons, hw, he]
      · simp [List.filter_cons, hw, he]

theorem classifyTags_allWanted (w pats : List String) :
    ∀ tags, (∀ t ∈ tags, t ∈ w) → classifyTags w pats tags = Except.ok [] := by
  intro tags
  induction tags with
  | nil => intro _; rfl
  | cons tag rest ih =>
    intro hall
    simp only [classifyTags]
    rw [if_pos (hall tag (List.mem_cons_self tag rest))]
    exact ih (fun t ht => hall t (List.mem_cons_of_mem tag ht))

theorem matchesExclusionPattern_reach_bad (t : String) (bad : String)
    (hbad : regexCompile bad = none) (post : List String) :
    ∀ pre : List String,
      (∀ p ∈ pre, ∃ r, regexCompile p = some r ∧ regexMatch r t = false) →
      matchesExclusionPattern t (pre ++ bad :: post) =
        Except.error (CErr.invalidPattern bad) := by
  intro pre
  induction pre with
  | nil =>
    intro _
    simp only [List.nil_append, matchesExclusionPattern, hbad]
  | cons p ps ih =>
    intro hpre
    obtain ⟨r, hr, hm⟩ := hpre p (List.mem_cons_self p ps)
    simp only [List.cons_append, matchesExclusionPattern, hr, hm]
    simp only [Bool.false_eq_true, if_false]
    exact ih (fun q hq => hpre q (List.mem_cons_of_mem p hq))

theorem matchesExclusionPattern_cases (bad : String) (hbad : regexCompile bad = none)
    (post : List String) (t : String) :
    ∀ pre : List String, (∀ p ∈ pre, regexCompile p ≠ none) →
      matchesExclusionPattern t (pre ++ bad :: post) =
          Except.error (CErr.invalidPattern bad) ∨
        ∃ p, matchesExclusionPattern t (pre ++ bad :: post) = Except.ok (true, p) := by
  intro pre
  induction pre with
  | nil =>
    intro _
    left
    simp only [List.nil_append, matchesExclusionPattern, hbad]
  | cons p ps ih =>
    intro hpre
    obtain ⟨r, hr⟩ := Option.ne_none_iff_exists'.mp
      (hpre p (List.mem_cons_self p ps))
    by_cases hm : regexMatch r t
    · right
      refine ⟨p, ?_⟩
      simp only [List.cons_append, matchesExclusionPattern, hr, if_pos hm]
    · rcases ih (fun q hq => hpre q (List.mem_cons_of_mem p hq)) with h1 | ⟨p2, h2⟩
      · left
        simp only [List.cons_append, matchesExclusionPattern, hr, if_neg hm]
        exact h1
      · right
        refine ⟨p2, ?_⟩
        simp only [List.cons_append, matchesExclusionPattern, hr, if_neg hm]
        exact h2

theorem classifyTags_err (w : List String) (bad : String)
    (hbad : regexCompile bad = none) (pre post : List String)
    (hpre : ∀ p ∈ pre, regexCompile p ≠ none) :
    ∀ (tags : List String) (tag : String), tag ∈ tags → tag ∉ w →
      (∀ p ∈ pre, ∃ r, regexCompile p = some r ∧ regexMatch r tag = false) →
      classifyTags w (pre ++ bad :: post) tags =
        Except.error (CErr.invalidPattern bad) := by
  intro tags
  induction tags with
  | nil => intro tag h; cases h
  | cons t rest ih =>
    intro tag hmem hnw hnom
    rcases List.mem_cons.mp hmem with heq | hmem2
    · subst heq
      simp only [classifyTags, if_neg hnw]
      rw [matchesExclusionPattern_reach_bad tag bad hbad post pre hnom]
    · by_cases hw : t ∈ w
      · simp only [classifyTags, if_pos hw]
        exact ih tag hmem2 hnw hnom
      · simp only [classifyTags, if_neg hw]
        rcases matchesExclusionPattern_cases bad hbad post t pre hpre with h1 | ⟨p2, h2⟩
        · rw [h1]
        · rw [h2, ih tag hmem2 hnw hnom]

theorem deleteLoop_nocancel (env : CleanupEnv) (hc : env.cancelAt = none) :
    ∀ (td : List String) (k : Nat), deleteLoop env k td = (td, delFailures env td) := by
  intro td
  induction td with
  | nil => intro k; rfl
  | cons tag rest ih =>
    intro k
    have hca : cancelledAt env k = false := by
      simp [cancelledAt, hc]
    simp only [deleteLoop, hca, Bool.false_eq_true, if_false]
    cases hd : env.delErr tag with
    | some e => simp [ih (k + 1), delFailures, List.filterMap_cons, hd]
    | none => simp [ih (k + 1), delFailures, List.filterMap_cons, hd]

theorem deleteLoop_cancel (env : CleanupEnv) (j : Nat) (hc : env.cancelAt = some j) :
    ∀ (td : List String) (k : Nat), k ≤ j → j - k < td.length →
      deleteLoop env k td =
        (td.take (j - k), delFailures env (td.take (j - k)) ++ [CErr.canceled]) := by
  intro td
  induction td with
  | nil =>
    intro k _ hlt
    simp at hlt
  | cons tag rest ih =>
    intro k hk hlt
    by_cases hjk : j ≤ k
    · have hj : j = k := Nat.le_antisymm hjk hk
      have hca : cancelledAt env k = true := by
        simp [cancelledAt, hc, hjk]
      have hz : j - k = 0 := by omega
      simp only [deleteLoop, hca, if_pos, hz, List.take_zero]
      simp [delFailures]
    · have hca : cancelledAt env k = false := by
        simp [cancelledAt, hc]
        omega
      have hsucc : j - k = (j - (k + 1)) + 1 := by omega
      have hlt2 : j - (k + 1) < rest.length := by
        simp only [List.length_cons] at hlt
        omega
      have hrec := ih (k + 1) (by omega) hlt2
      simp only [deleteLoop, hca, Bool.false_eq_true, if_false, hrec, hsucc,
        List.take_succ_cons]
      cases hd : env.delErr tag with
      | some e => simp [delFailures, List.filterMap_cons, hd]
      | none => simp [delFailures, List.filterMap_cons, hd]

theorem deleteLoop_canceled_mem (env : CleanupEnv) :
    ∀ td : List String, CErr.canceled ∈ (deleteLoop env 0 td).2 → td ≠ [] := by
  intro td h hnil
  subst hnil
  simp only [deleteLoop] at h
  cases h

/-- The tags a cleanup invocation schedules for deletion: listed tags that
are not wanted and match no pooled exclusion pattern. -/
def unwantedTags (w pats tags : List String) : List String :=
  tags.filter (fun t => !(decide (t ∈ w)) && !(anyExcl pats t))

theorem cleanupTags_eq (sv : String → String → Bool) (conf : List ConfigSync)
    (tgt : String) (env : CleanupEnv) (w : List String) (ae : Bool)
    (hw : computeWanted sv (findSyncEntriesForTarget conf tgt) env.tags =
      Except.ok (w, ae)) :
    cleanupTags sv conf tgt env =
      match classifyTags (if ae then env.tags else w)
          (allExclusions (findSyncEntriesForTarget conf tgt)) env.tags with
      | Except.error e => ⟨[], Except.error e⟩
      | Except.ok td => ⟨(deleteLoop env 0 td).1, Except.ok (deleteLoop env 0 td).2⟩ := by
  simp only [cleanupTags]
  rw [hw]

/-- C2 (amended): when at least one sibling rule carries a filter set (the
flag returned by the wanted computation is false), every pooled exclusion
pattern compiles, and the caller never cancels, cleanupTags attempts deletion
of exactly the listed tags that are neither in the union of the wanted tags of
every sibling rule's filter sets nor match any pooled exclusion pattern; the
wanted union is characterised as membership in some sibling rule's filter-set
output. -/
theorem cleanupTags_deletes_exactly (sv : String → String → Bool)
    (conf : List ConfigSync) (tgt : String) (env : CleanupEnv) (w : List String)
    (hcancel : env.cancelAt = none)
    (hw : computeWanted sv (findSyncEntriesForTarget conf tgt) env.tags =
      Except.ok (w, false))
    (hcomp : ∀ p ∈ allExclusions (findSyncEntriesForTarget conf tgt),
      regexCompile p ≠ none) :
    (∀ t, t ∈ w ↔ ∃ se ∈ findSyncEntriesForTarget conf tgt, ∃ ts ∈ effectiveSets se,
      ∃ out, filterTagList sv ts env.tags = Except.ok out ∧ t ∈ out) ∧
    (∀ t, t ∈ unwantedTags w (allExclusions (findSyncEntriesForTarget conf tgt)) env.tags ↔
      t ∈ env.tags ∧ t ∉ w ∧
        anyExcl (allExclusions (findSyncEntriesForTarget conf tgt)) t = false) ∧
    cleanupTags sv conf tgt env =
      ⟨unwantedTags w (allExclusions (findSyncEntriesForTarget conf tgt)) env.tags,
       Except.ok (delFailures env
         (unwantedTags w (allExclusions (findSyncEntriesForTarget conf tgt)) env.tags))⟩ := by
  refine ⟨?_, ?_, ?_⟩
  · intro t
    have := computeWantedGo_mem sv env.tags (findSyncEntriesForTarget conf tgt)
      [] true w false hw t
    simpa using this
  · intro t
    simp [unwantedTags, List.mem_filter]
  · rw [cleanupTags_eq sv conf tgt env w false hw]
    rw [show (if false then env.tags else w) = w from rfl]
    simp only [classifyTags_eq w _ hcomp env.tags, deleteLoop_nocancel env hcancel]
    rfl

/-- C2 witness configuration: rules A and B share the target; A allows only
the stable tag, B allows only the latest tag. -/
def confAB : List ConfigSync :=
  [⟨"repo:tag", ⟨["^stable$"], [], ""⟩, [], []⟩,
   ⟨"repo:tag", ⟨["^latest$"], [], ""⟩, [], []⟩]

def envAB : CleanupEnv := ⟨["stable", "latest", "old"], fun _ => none, none⟩

def svNone : String → String → Bool := fun _ _ => false

/-- C2 witness: with existing tags stable, latest and old, only old is
deleted — the union of the sibling rules' wanted tags protects both stable
and latest. -/
theorem cleanupTags_deletes_exactly_witness :
    computeWanted svNone (findSyncEntriesForTarget confAB "repo:tag") envAB.tags =
      Except.ok (["stable", "latest"], false) ∧
    (cleanupTags svNone confAB "repo:tag" envAB).attempted = ["old"] := by
  refine ⟨by decide, ?_⟩
  have h := (cleanupTags_deletes_exactly svNone confAB "repo:tag" envAB
    ["stable", "latest"] rfl (by decide) (by decide)).2.2
  rw [h]
  decide

/-- A single sync rule with no filter sets at all. -/
def confEmptyRule : List ConfigSync := [⟨"repo", {}, [], []⟩]

def envOld : CleanupEnv := ⟨["old"], fun _ => none, none⟩

/-- C2 counterexample: with one sibling rule carrying no filter set and no
exclusions, the union of wanted tags over all filter sets is empty and the
listed tag old matches no exclusion pattern, so the claim's rule would delete
it; the code deletes nothing (the all-sets-empty convention makes every tag
wanted). -/
theorem cleanupTags_deletes_exactly_cex :
    findSyncEntriesForTarget confEmptyRule "repo" = [⟨"repo", {}, [], []⟩] ∧
    effectiveSets (⟨"repo", {}, [], []⟩ : ConfigSync) = [] ∧
    allExclusions (findSyncEntriesForTarget confEmptyRule "repo") = [] ∧
    envOld.tags = ["old"] ∧
    (cleanupTags svNone confEmptyRule "repo" envOld).attempted = [] ∧
    (cleanupTags svNone confEmptyRule "repo" envOld).result = Except.ok [] := by
  refine ⟨by decide, by decide, by decide, rfl, by decide, by decide⟩

/-- C3 (amended): if, while classifying some non-wanted existing tag, the
pooled exclusion check reaches a pattern that fails to compile (every earlier
pattern in the combined list compiles and none of them matches that tag), the
whole cleanup aborts with the compile error identifying that offending
pattern, and no tag deletion is performed. -/
theorem cleanupTags_invalidPattern (sv : String → String → Bool)
    (conf : List ConfigSync) (tgt : String) (env : CleanupEnv) (w : List String)
    (ae : Bool) (pre post : List String) (bad tag : String)
    (hw : computeWanted sv (findSyncEntriesForTarget conf tgt) env.tags =
      Except.ok (w, ae))
    (hpats : allExclusions (findSyncEntriesForTarget conf tgt) = pre ++ bad :: post)
    (hbad : regexCompile bad = none)
    (hpre : ∀ p ∈ pre, regexCompile p ≠ none)
    (htag : tag ∈ env.tags)
    (hnw : tag ∉ (if ae then env.tags else w))
    (hnom : ∀ p ∈ pre, ∃ r, regexCompile p = some r ∧ regexMatch r tag = false) :
    cleanupTags sv conf tgt env = ⟨[], Except.error (CErr.invalidPattern bad)⟩ := by
  rw [cleanupTags_eq sv conf tgt env w ae hw, hpats]
  simp only [classifyTags_err (if ae then env.tags else w) bad hbad pre post hpre
    env.tags tag htag hnw hnom]

/-- Configuration whose only rule wants no existing tag and carries a
non-compiling exclusion pattern. -/
def confBadExcl : List ConfigSync := [⟨"repo", ⟨["^keep$"], [], ""⟩, [], ["["]⟩]

/-- C3 witness: the non-wanted tag old reaches the non-compiling pattern, the
cleanup aborts with that pattern and issues no deletion. -/
theorem cleanupTags_invalidPattern_witness :
    regexCompile "[" = none ∧
    cleanupTags svNone confBadExcl "repo" envOld =
      ⟨[], Except.error (CErr.invalidPattern "[")⟩ := by
  refine ⟨by decide, ?_⟩
  exact cleanupTags_invalidPattern svNone confBadExcl "repo" envOld [] false [] []
    "[" "old" (by decide) rfl (by decide) (by decide) (by decide) (by decide) (by decide)

/-- Configuration whose only rule wants every existing tag and carries a
non-compiling exclusion pattern. -/
def confBadExclAllWanted : List ConfigSync :=
  [⟨"repo", ⟨["^stable$"], [], ""⟩, [], ["["]⟩]

def envStable : CleanupEnv := ⟨["stable"], fun _ => none, none⟩

/-- C3 counterexample: a non-compiling exclusion pattern in the pooled list
does not abort the cleanup when it is never reached — here every existing tag
is wanted, so the exclusion check never runs and the invocation succeeds. -/
theorem cleanupTags_invalidPattern_cex :
    regexCompile "[" = none ∧
    allExclusions (findSyncEntriesForTarget confBadExclAllWanted "repo") = ["["] ∧
    (cleanupTags svNone confBadExclAllWanted "repo" envStable).attempted = [] ∧
    (cleanupTags svNone confBadExclAllWanted "repo" envStable).result =
      Except.ok [] := by
  refine ⟨by decide, by decide, by decide, by decide⟩

/-- C4: when every sibling rule for the target has zero filter sets, every
existing tag is wanted by convention and the cleanup deletes nothing and
succeeds. -/
theorem cleanupTags_allWanted_noDeletes (sv : String → String → Bool)
    (conf : List ConfigSync) (tgt : String) (env : CleanupEnv)
    (hall : ∀ se ∈ findSyncEntriesForTarget conf tgt, effectiveSets se = []) :
    cleanupTags sv conf tgt env = ⟨[], Except.ok []⟩ := by
  have hw : computeWanted sv (findSyncEntriesForTarget conf tgt) env.tags =
      Except.ok ([], true) :=
    computeWantedGo_allEmpty sv env.tags _ hall [] true
  rw [cleanupTags_eq sv conf tgt env [] true hw]
  rw [show (if true then env.tags else ([] : List String)) = env.tags from rfl]
  simp only [classifyTags_allWanted env.tags
    (allExclusions (findSyncEntriesForTarget conf tgt)) env.tags (fun t ht => ht)]
  rfl

/-- C4 witness: a rule with no allow, deny or semverRange and no siblings
deletes nothing. -/
theorem cleanupTags_allWanted_noDeletes_witness :
    (∀ se ∈ findSyncEntriesForTarget confEmptyRule "repo", effectiveSets se = []) ∧
    cleanupTags svNone confEmptyRule "repo" envOld = ⟨[], Except.ok []⟩ :=
  ⟨by decide, cleanupTags_allWanted_noDeletes svNone confEmptyRule "repo" envOld (by decide)⟩

/-- C5: when cancellation is observed at the check before scheduled deletion
number i, the deletions up to i stay issued (no rollback), nothing from i
onward is attempted, and the aggregate is exactly the failures collected
before i followed by the Canceled marker. -/
theorem cleanupTags_cancel_spec (sv : String → String → Bool)
    (conf : List ConfigSync) (tgt : String) (env : CleanupEnv) (w : List String)
    (ae : Bool) (td : List String) (i : Nat)
    (hw : computeWanted sv (findSyncEntriesForTarget conf tgt) env.tags =
      Except.ok (w, ae))
    (hcl : classifyTags (if ae then env.tags else w)
      (allExclusions (findSyncEntriesForTarget conf tgt)) env.tags = Except.ok td)
    (hc : env.cancelAt = some i) (hi : i < td.length) :
    cleanupTags sv conf tgt env =
      ⟨td.take i, Except.ok (delFailures env (td.take i) ++ [CErr.canceled])⟩ := by
  rw [cleanupTags_eq sv conf tgt env w ae hw]
  simp only [hcl]
  have h := deleteLoop_cancel env i hc td 0 (Nat.zero_le i) (by simpa using hi)
  rw [Nat.sub_zero] at h
  rw [h]

/-- A rule wanting no existing tag, used to schedule every tag for
deletion. -/
def confKeep : List ConfigSync := [⟨"repo", ⟨["^keep$"], [], ""⟩, [], []⟩]

def envCancel1 : CleanupEnv :=
  ⟨["a", "b", "c"], fun t => if t = "a" then some "boom" else none, some 1⟩

/-- C5 witness: of three scheduled deletions with cancellation observed
before the second, only the first is issued (and its failure collected), the
rest are skipped and the aggregate ends with the Canceled marker. -/
theorem cleanupTags_cancel_spec_witness :
    envCancel1.cancelAt = some 1 ∧
    (cleanupTags svNone confKeep "repo" envCancel1).attempted = ["a"] ∧
    (cleanupTags svNone confKeep "repo" envCancel1).result =
      Except.ok [CErr.deleteFailed "a" "boom", CErr.canceled] := by
  have h := cleanupTags_cancel_spec svNone confKeep "repo" envCancel1 [] false
    ["a", "b", "c"] 1 (by decide) (by decide) rfl (by decide)
  refine ⟨rfl, ?_, ?_⟩ <;> rw [h] <;> decide

/-- C6: without cancellation, an individual deletion failure does not stop
later scheduled deletions — every scheduled tag is attempted — and the final
result is exactly the aggregate of the per-tag failures that occurred
(success when none occurred). -/
theorem cleanupTags_isolation_spec (sv : String → String → Bool)
    (conf : List ConfigSync) (tgt : String) (env : CleanupEnv) (w : List String)
    (ae : Bool) (td : List String)
    (hw : computeWanted sv (findSyncEntriesForTarget conf tgt) env.tags =
      Except.ok (w, ae))
    (hcl : classifyTags (if ae then env.tags else w)
      (allExclusions (findSyncEntriesForTarget conf tgt)) env.tags = Except.ok td)
    (hc : env.cancelAt = none) :
    cleanupTags sv conf tgt env = ⟨td, Except.ok (delFailures env td)⟩ := by
  rw [cleanupTags_eq sv conf tgt env w ae hw]
  simp only [hcl, deleteLoop_nocancel env hc]

def envFailB : CleanupEnv :=
  ⟨["a", "b", "c"], fun t => if t = "b" then some "boom" else none, none⟩

/-- C6 witness: the middle deletion fails, the later one is still attempted,
and the aggregate holds exactly that one failure. -/
theorem cleanupTags_isolation_spec_witness :
    envFailB.cancelAt = none ∧
    (cleanupTags svNone confKeep "repo" envFailB).attempted = ["a", "b", "c"] ∧
    (cleanupTags svNone confKeep "repo" envFailB).result =
      Except.ok [CErr.deleteFailed "b" "boom"] := by
  have h := cleanupTags_isolation_spec svNone confKeep "repo" envFailB [] false
    ["a", "b", "c"] (by decide) (by decide) rfl
  refine ⟨rfl, ?_, ?_⟩ <;> rw [h] <;> decide

/-- C10: when classification schedules no deletion the cleanup returns
success with an empty aggregate regardless of the cancellation state (the
deletion loop body, where the only cancellation check lives, never runs), and
a Canceled failure can only arise when at least one deletion was scheduled. -/
theorem cleanupTags_emptySchedule_spec (sv : String → String → Bool)
    (conf : List ConfigSync) (tgt : String) (env : CleanupEnv) (w : List String)
    (ae : Bool)
    (hw : computeWanted sv (findSyncEntriesForTarget conf tgt) env.tags =
      Except.ok (w, ae))
    (hcl : classifyTags (if ae then env.tags else w)
      (allExclusions (findSyncEntriesForTarget conf tgt)) env.tags = Except.ok []) :
    cleanupTags sv conf tgt env = ⟨[], Except.ok []⟩ ∧
    ∀ td, CErr.canceled ∈ (deleteLoop env 0 td).2 → td ≠ [] := by
  refine ⟨?_, deleteLoop_canceled_mem env⟩
  rw [cleanupTags_eq sv conf tgt env w ae hw]
  simp only [hcl]
  rfl

/-- A rule wanting exactly the one existing tag, with the context already
cancelled. -/
def confStable : List ConfigSync := [⟨"repo", ⟨["^stable$"], [], ""⟩, [], []⟩]

def envCancelled0 : CleanupEnv := ⟨["stable"], fun _ => none, some 0⟩

/-- C10 witness: with the context cancelled from the start but nothing to
delete, the cleanup still returns success with no Canceled failure. -/
theorem cleanupTags_emptySchedule_spec_witness :
    envCancelled0.cancelAt = some 0 ∧
    cleanupTags svNone confStable "repo" envCancelled0 = ⟨[], Except.ok []⟩ :=
  ⟨rfl, (cleanupTags_emptySchedule_spec svNone confStable "repo" envCancelled0
    ["stable"] false (by decide) (by decide)).1⟩
